import Mathlib

/-!
Verification of the review theme-assignment pipeline.

The development shallowly embeds the Python sources:
layer2_theme_extraction.py (the theme assignment engine and its catalog),
src/classifier.py (the batch classifier), src/reporter.py (the top-theme
selection of generate_pulse) and scrape_groww.py (the mask_pii sanitiser).
Pure string and list manipulation is translated to Lean functions; the
embedding provider and the cosine-similarity kernel are injected parameters
(the Python provider is a random simulator); dictionary or array indexing
that can raise is modelled with Except.
-/

/-- Python str.isspace on the ASCII whitespace characters, used by str.strip. -/
def pyIsSpace (c : Char) : Bool :=
  c = ' ' || c = '\t' || c = '\n' || c = '\r' || c = '\x0b' || c = '\x0c'

/-- Python truth test `not s.strip()`: every character of the string is whitespace. -/
def pyBlank (s : String) : Bool := s.data.all pyIsSpace

/-- Python s.lower() on ASCII text, applied characterwise. -/
def pyLower (s : String) : String := String.mk (s.data.map Char.toLower)

/-- Test whether the first list is a leading block of the second. -/
def ledBy : List Char → List Char → Bool
  | [], _ => true
  | _ :: _, [] => false
  | a :: as, b :: bs => (a == b) && ledBy as bs

/-- Substring occurrence on character lists, scanning start positions left to right. -/
def occursIn (needle : List Char) : List Char → Bool
  | [] => needle.isEmpty
  | c :: rest => ledBy needle (c :: rest) || occursIn needle rest

/-- Python `a in b` for strings: a occurs as a contiguous substring of b. -/
def pyIn (a b : String) : Bool := occursIn a.data b.data

/-- Case-insensitive occurrence of a keyword in content: both sides lowercased
before the substring test.  This is the comparison the specification names. -/
def ciOccurs (kw content : String) : Bool := pyIn (pyLower kw) (pyLower content)

/-- Operational bucket record: the keyword list and integer priority of one
entry of OPERATIONAL_BUCKETS in layer2_theme_extraction.py. -/
structure Bucket where
  keywords : List String
  priority : Int

/-- A bucket catalog: an ordered association list mirroring the insertion-ordered
Python dict of buckets. -/
abbrev Catalog := List (String × Bucket)

/-- Python dict access operational_buckets[name]: the entry with the given key,
none when the key is absent (Python would raise KeyError). -/
def lookupBucket : Catalog → String → Option Bucket
  | [], _ => none
  | (n, b) :: rest, name => if n = name then some b else lookupBucket rest name

/-- The OPERATIONAL_BUCKETS catalog of layer2_theme_extraction.py, entries in
dict insertion order, keywords transcribed verbatim. -/
def OPERATIONAL_BUCKETS : Catalog :=
  [ ("Order Execution",
      { keywords := ["buy", "sell", "trade", "stop-loss", "order", "market timing",
                     "stuck", "price not updated", "wrong candle", "loss", "profit",
                     "execution", "lagging", "fail"],
        priority := 1 }),
    ("Payments/Money",
      { keywords := ["money", "payment", "withdraw", "add fund", "UPI", "Netbanking",
                     "withdrawal", "deposit", "transaction", "transferred", "credit",
                     "debit"],
        priority := 2 }),
    ("App Performance",
      { keywords := ["crash", "lag", "slow", "freeze", "bug", "error", "not working",
                     "technical issue", "hang", "battery drain", "glitch"],
        priority := 3 }),
    ("Onboarding/KYC",
      { keywords := ["KYC", "onboard", "sign up", "verify", "document",
                     "account activation", "registration", "login issue"],
        priority := 4 }),
    ("Charges/Policy",
      { keywords := ["charges", "fees", "brokerage", "account maintenance",
                     "hidden charges", "commission", "policy"],
        priority := 5 }),
    ("General Sentiment",
      { keywords := ["good app", "easy to use", "best app", "superb", "excellent",
                     "nice app", "great app", "simple interface", "user friendly",
                     "no complaints"],
        priority := 99 }) ]

/-- Step 1 of assign: scan the General Sentiment keywords against the lowercased
content; the error branch models the KeyError Python raises when the catalog has
no bucket of that name. -/
def sentimentScan (bs : Catalog) (contentLower : String) : Except Unit Bool :=
  match lookupBucket bs "General Sentiment" with
  | none => .error ()
  | some b => .ok (b.keywords.any (fun k => pyIn k contentLower))

/-- Step 2 of assign: the prioritized keyword scan over non-sentiment buckets.
A bucket contributes at most one (name, priority) entry, recorded as soon as
any of its keywords occurs verbatim in the lowercased content. -/
def matchedBuckets : Catalog → String → List (String × Int)
  | [], _ => []
  | (n, b) :: rest, cl =>
    if n = "General Sentiment" then matchedBuckets rest cl
    else if b.keywords.any (fun k => pyIn k cl) then
      (n, b.priority) :: matchedBuckets rest cl
    else matchedBuckets rest cl

/-- Stable insertion for a strict comparison lt: the inserted element goes
after every existing element it is not strictly below, hence after equals, as
in the stable Python sorts. -/
def insStable {A : Type} (lt : A → A → Bool) (x : A) : List A → List A
  | [] => [x]
  | y :: ys => if lt x y then x :: y :: ys else y :: insStable lt x ys

/-- Insertion-sort accumulator: elements are consumed left to right. -/
def sortStableAux {A : Type} (lt : A → A → Bool) : List A → List A → List A
  | acc, [] => acc
  | acc, x :: xs => sortStableAux lt (insStable lt x acc) xs

/-- Stable sort by the strict comparison lt. -/
def sortStable {A : Type} (lt : A → A → Bool) (l : List A) : List A :=
  sortStableAux lt [] l

/-- The strict comparison of the priority sort in assign. -/
def prioLt (a b : String × Int) : Bool := a.2 < b.2

/-- Model of matched_buckets.sort(key=lambda x: x[1]): a stable ascending sort
by priority. -/
def sortByPrio (l : List (String × Int)) : List (String × Int) := sortStable prioLt l

/-- The tied candidate pool at the minimum matched priority, in the scan order
of the prioritized keyword scan.  The stable priority sort keeps entries of
equal priority in scan order, so the top_priority_buckets list the code builds
is exactly this list. -/
def tiedCandidates (bs : Catalog) (cl : String) (p : Int) : List String :=
  ((matchedBuckets bs cl).filter (fun y => decide (y.2 = p))).map Prod.fst

/-- Python list(operational_buckets.keys()).index(name): position of the first
entry with the given key. -/
def keysIndex : Catalog → String → Option Nat
  | [], _ => none
  | (n, _) :: rest, name =>
    if n = name then some 0 else (keysIndex rest name).map (· + 1)

/-- Similarity of the review embedding with the bucket embedding stored at a
positional index, zero when the index is out of range (the loops only consult
indices in range). -/
def simIdx {V : Type} (sim : V → V → ℚ) (rEmb : V) (embs : List V) (i : Nat) : ℚ :=
  match embs[i]? with
  | none => 0
  | some e => sim rEmb e

/-- The similarity the tie-break loop computes for a candidate name, locating
the bucket embedding through the position of the name in the catalog key list. -/
def simAtName {V : Type} (sim : V → V → ℚ) (rEmb : V) (bs : Catalog) (embs : List V)
    (nm : String) : ℚ :=
  match keysIndex bs nm with
  | none => 0
  | some i => simIdx sim rEmb embs i

/-- A running strict-argmax fold: the pure counterpart of the two similarity
loops of assign, carrying the current best candidate and max_similarity. -/
def bestFold {A : Type} (f : A → ℚ) : List A → Option A × ℚ → Option A × ℚ
  | [], st => st
  | a :: rest, (best, mx) =>
    if mx < f a then bestFold f rest (some a, f a) else bestFold f rest (best, mx)

/-- The enumerated non-sentiment entries of the catalog starting at a given
index: the candidate pool of the full embedding fallback, each entry carrying
its positional index into bucket_embeddings. -/
def nsEnum : Nat → Catalog → List (Nat × String)
  | _, [] => []
  | i, (n, _) :: rest =>
    if n = "General Sentiment" then nsEnum (i + 1) rest
    else (i, n) :: nsEnum (i + 1) rest

/-- The tie-break loop of assign over the top-priority candidate names, carrying
best_bucket (initially Python None) and max_similarity (initially -1); the error
branch models an out-of-range access into bucket_embeddings. -/
def tieLoop {V : Type} (sim : V → V → ℚ) (rEmb : V) (bs : Catalog) (embs : List V) :
    List String → Option String → ℚ → Except Unit (Option String)
  | [], best, _ => .ok best
  | name :: rest, best, maxSim =>
    match keysIndex bs name with
    | none => .error ()
    | some i =>
      match embs[i]? with
      | none => .error ()
      | some e =>
        if maxSim < sim rEmb e then tieLoop sim rEmb bs embs rest (some name) (sim rEmb e)
        else tieLoop sim rEmb bs embs rest best maxSim

/-- The full-fallback loop of assign over the enumerated catalog, skipping the
General Sentiment bucket, carrying best_bucket (initially "Uncategorized") and
max_similarity (initially -1). -/
def fbLoop {V : Type} (sim : V → V → ℚ) (rEmb : V) (embs : List V) :
    Nat → Catalog → String → ℚ → Except Unit String
  | _, [], best, _ => .ok best
  | i, (n, _) :: rest, best, maxSim =>
    if n = "General Sentiment" then fbLoop sim rEmb embs (i + 1) rest best maxSim
    else
      match embs[i]? with
      | none => .error ()
      | some e =>
        if maxSim < sim rEmb e then fbLoop sim rEmb embs (i + 1) rest n (sim rEmb e)
        else fbLoop sim rEmb embs (i + 1) rest best maxSim

/-- Shallow embedding of assign_themes_to_reviews_with_priority.  The review
content is an Option (none models a pandas NaN), V is the embedding vector
type, sim models sklearn cosine_similarity and embed models
get_embedding_simulation.  The outer error branch models a raised exception;
the ok branch carries the Python return value, where none models the Python
None that an empty tie-break loop leaves in best_bucket. -/
def assign {V : Type} (sim : V → V → ℚ) (embed : String → V)
    (review_content : Option String) (bs : Catalog) (embs : List V) :
    Except Unit (Option String) :=
  match review_content with
  | none => .ok (some "Uncategorized")
  | some content =>
    if pyBlank content then .ok (some "Uncategorized")
    else
      match sentimentScan bs (pyLower content) with
      | .error e => .error e
      | .ok gsMatch =>
        let m := matchedBuckets bs (pyLower content)
        if m = [] then
          if gsMatch then .ok (some "General Sentiment")
          else (fbLoop sim (embed content) embs 0 bs "Uncategorized" (-1)).map some
        else
          let sorted := sortByPrio m
          let p0 := sorted.headI.2
          let top := (sorted.filter (fun y => y.2 = p0)).map Prod.fst
          match top with
          | [t] => .ok (some t)
          | _ => tieLoop sim (embed content) bs embs top none (-1)

/-- A trivial vector type used to instantiate assign in closed computations that
never reach an embedding comparison. -/
def simZ : Unit → Unit → ℚ := fun _ _ => 0

/-- A trivial embedding provider for closed computations. -/
def embZ : String → Unit := fun _ => ()

example : pyIn "slow" (pyLower "App is SLOW today") = true := by decide

example :
    assign simZ embZ (some "app is slow and fee is high")
      [("A", { keywords := ["slow"], priority := 1 }),
       ("B", { keywords := ["fee"], priority := 2 }),
       ("General Sentiment", { keywords := ["great"], priority := 99 })]
      [(), (), ()] = .ok (some "A") := by rfl

example :
    assign simZ embZ (some "great app, no issues")
      [("A", { keywords := ["slow"], priority := 1 }),
       ("B", { keywords := ["fee"], priority := 2 }),
       ("General Sentiment", { keywords := ["great"], priority := 99 })]
      [(), (), ()] = .ok (some "General Sentiment") := by rfl

example :
    assign simZ embZ (some "   ") OPERATIONAL_BUCKETS [] = .ok (some "Uncategorized") := by
  rfl

/-- One parsed item of the model response to classify_batch_reviews: the value
of its "theme" field when present. -/
abbrev RespItem := Option String

/-- Shallow embedding of classify_batch_reviews (src/classifier.py).  The
provider boundary is the parsed JSON response: the error branch models any
raised exception (network failure, unparseable JSON, a non-string theme), the
ok branch the parsed array of items.  On success each item's theme, defaulted
to "General Sentiment" when the field is absent, is kept when some known theme
name occurs case-insensitively inside it and replaced by "General Sentiment"
otherwise; on failure every review of the chunk gets "General Sentiment". -/
def classify_batch_reviews (reviews_list : List String) (themes : List String)
    (response : Except Unit (List RespItem)) : List String :=
  match response with
  | .error _ => List.replicate reviews_list.length "General Sentiment"
  | .ok items =>
    items.map (fun it =>
      let theme := it.getD "General Sentiment"
      if themes.any (fun t => pyIn (pyLower t) (pyLower theme)) then theme
      else "General Sentiment")

/-- The theme_names list of classify_reviews (src/classifier.py lines 91 to 93). -/
def theme_names : List String :=
  ["Order Execution", "Payments/Money", "App Performance", "Onboarding/KYC",
   "Charges/Policy", "Missing or Requested Features", "Customer Support",
   "UI/UX", "General Sentiment"]

/-- The chunk loop of classify_reviews: each batch is classified with its own
provider response and the results are appended in order, modelling
all_classifications.extend over consecutive slices. -/
def processChunks (themes : List String)
    (chunks : List (List String × Except Unit (List RespItem))) : List String :=
  (chunks.map (fun c => classify_batch_reviews c.1 themes c.2)).flatten

/-- First-appearance order of the distinct values of a list, with the already
seen values carried in an accumulator. -/
def firstKeysAux (seen : List String) : List String → List String
  | [] => []
  | x :: xs =>
    if x ∈ seen then firstKeysAux seen xs
    else x :: firstKeysAux (x :: seen) xs

/-- Distinct values of a list in first-appearance order, the key order pandas
value_counts produces before sorting. -/
def firstKeys (l : List String) : List String := firstKeysAux [] l

/-- The strict comparison of the descending count sort of value_counts. -/
def cntGt (a b : String × Nat) : Bool := b.2 < a.2

/-- Stable sort by descending count. -/
def sortByCntDesc (l : List (String × Nat)) : List (String × Nat) := sortStable cntGt l

/-- Model of pandas Series.value_counts(): each distinct value paired with its
multiplicity, keys in first-appearance order, stably sorted by descending
count. -/
def valueCounts (l : List String) : List (String × Nat) :=
  sortByCntDesc ((firstKeys l).map (fun k => (k, l.count k)))

/-- The distribution base of generate_pulse (src/reporter.py lines 107 to 108):
the actionable rows with General Sentiment dropped, or every row when no
actionable row exists. -/
def pulseBase (labels : List String) : List String :=
  let actionable := labels.filter (fun t => t != "General Sentiment")
  if actionable.isEmpty then labels else actionable

/-- The top-theme selection of generate_pulse (src/reporter.py lines 107 to
110): the first three keys of value_counts over the distribution base. -/
def generate_pulse_top3 (labels : List String) : List String :=
  ((valueCounts (pulseBase labels)).take 3).map Prod.fst

/-- Characters admitted by the local part of the email expression of mask_pii. -/
def emailLocalChar (c : Char) : Bool :=
  c.isAlpha || c.isDigit || c = '.' || c = '_' || c = '%' || c = '+' || c = '-'

/-- Characters admitted by the domain part of the email expression. -/
def emailDomChar (c : Char) : Bool :=
  c.isAlpha || c.isDigit || c = '.' || c = '-'

/-- Length of the longest leading run of characters satisfying p. -/
def runLen (p : Char → Bool) : List Char → Nat
  | [] => 0
  | c :: rest => if p c then runLen p rest + 1 else 0

/-- Backtracking search for the domain tail of the email expression after the
at sign: a domain run of length k (tried longest first, as the greedy engine
does), a literal dot, then at least two letters taken greedily; returns the
total length consumed. -/
def domTry (cs : List Char) : Nat → Option Nat
  | 0 => none
  | Nat.succ k =>
    let dLen := Nat.succ k
    let tLen := runLen Char.isAlpha (cs.drop (dLen + 1))
    if cs.get? dLen == some '.' && decide (2 ≤ tLen) then some (dLen + 1 + tLen)
    else domTry cs k

/-- Attempt to match the email expression at the head of the text, returning
the matched length.  The local part is the maximal run of local characters
(a shorter run would be followed by a local character, never the required at
sign, so the greedy engine accepts only the maximal run). -/
def emailMatchLen (cs : List Char) : Option Nat :=
  let lLen := runLen emailLocalChar cs
  if lLen = 0 then none
  else
    match cs.get? lLen with
    | some '@' =>
      let rest := cs.drop (lLen + 1)
      match domTry rest (runLen emailDomChar rest) with
      | some dLen => some (lLen + 1 + dLen)
      | none => none
    | _ => none

/-- Left-to-right non-overlapping substitution of email matches, fuelled by the
text length (every match consumes at least one character). -/
def subEmailAux : Nat → List Char → List Char
  | 0, cs => cs
  | _, [] => []
  | fuel + 1, c :: rest =>
    match emailMatchLen (c :: rest) with
    | some n => "[EMAIL_MASKED]".data ++ subEmailAux fuel ((c :: rest).drop n)
    | none => c :: subEmailAux fuel rest

/-- The email substitution of mask_pii (scrape_groww.py line 39). -/
def maskEmails (s : String) : String := String.mk (subEmailAux s.data.length s.data)

/-- The first phone pattern of mask_pii as the raw literal denotes it: the raw
string doubles every backslash, so the expression matches the literal sixteen
character text backslash b backslash, ten times d, backslash b. -/
def phonePat1 : List Char :=
  '\\' :: 'b' :: '\\' :: (List.replicate 10 'd' ++ ['\\', 'b'])

/-- Left-to-right non-overlapping substitution of a fixed nonempty pattern. -/
def subFixedAux (pat repl : List Char) : Nat → List Char → List Char
  | 0, cs => cs
  | _, [] => []
  | fuel + 1, c :: rest =>
    if ledBy pat (c :: rest) then
      repl ++ subFixedAux pat repl fuel ((c :: rest).drop pat.length)
    else c :: subFixedAux pat repl fuel rest

/-- The fixed tail of the second phone pattern: one backslash, ten literal d
characters, then backslash b. -/
def phoneTail : List Char := '\\' :: (List.replicate 10 'd' ++ ['\\', 'b'])

/-- The optional separator class of the second phone pattern as the raw literal
denotes it: a hyphen, a backslash or a literal s. -/
def phone2Sep (c : Char) : Bool := c = '-' || c = '\\' || c = 's'

/-- Attempt to match the second phone pattern at the head of the text: one or
more backslashes (only the maximal run can be followed by the required digit
nine), the digits nine and one, an optional separator tried greedily, then the
fixed tail. -/
def phone2MatchLen (cs : List Char) : Option Nat :=
  let n := runLen (fun c => c = '\\') cs
  if n = 0 then none
  else
    match cs.drop n with
    | '9' :: '1' :: rest =>
      if (match rest with
          | c :: rest2 => phone2Sep c && ledBy phoneTail rest2
          | [] => false) then
        some (n + 2 + 1 + phoneTail.length)
      else if ledBy phoneTail rest then some (n + 2 + phoneTail.length)
      else none
    | _ => none

/-- Left-to-right non-overlapping substitution of second phone pattern matches. -/
def subPhone2Aux : Nat → List Char → List Char
  | 0, cs => cs
  | _, [] => []
  | fuel + 1, c :: rest =>
    match phone2MatchLen (c :: rest) with
    | some n => "[PHONE_MASKED]".data ++ subPhone2Aux fuel ((c :: rest).drop n)
    | none => c :: subPhone2Aux fuel rest

/-- Shallow embedding of mask_pii (scrape_groww.py lines 34 to 44): the email
substitution, then the two phone substitutions with the patterns exactly as
the raw Python string literals denote them. -/
def mask_pii (s : String) : String :=
  let t1 := maskEmails s
  let t2 := String.mk (subFixedAux phonePat1 "[PHONE_MASKED]".data t1.data.length t1.data)
  String.mk (subPhone2Aux t2.data.length t2.data)

example : mask_pii "reach me at ab.9@mail.co or 9876543210" =
    "reach me at [EMAIL_MASKED] or 9876543210" := by rfl

example : mask_pii "+91 9876543210 is my number" =
    "+91 9876543210 is my number" := by rfl

example : generate_pulse_top3 ["A", "B", "General Sentiment", "A", "C", "B", "C", "C"] =
    ["C", "A", "B"] := by rfl

example : generate_pulse_top3 ["General Sentiment", "General Sentiment"] =
    ["General Sentiment"] := by rfl

example : classify_batch_reviews ["r1", "r2"] theme_names (.error ()) =
    ["General Sentiment", "General Sentiment"] := by rfl

example : classify_batch_reviews ["r1", "r2"] theme_names
    (.ok [some "App Performance", some "nonsense"]) =
    ["App Performance", "General Sentiment"] := by rfl

theorem insStable_perm {A : Type} (lt : A → A → Bool) (x : A) (l : List A) :
    (insStable lt x l).Perm (x :: l) := by
  induction l with
  | nil => simp [insStable]
  | cons y ys ih =>
    simp only [insStable]
    by_cases h : lt x y = true
    · simp [h]
    · rw [if_neg (by simp [h])]
      exact (ih.cons y).trans (List.Perm.swap x y ys)

theorem sortStableAux_perm {A : Type} (lt : A → A → Bool) (l acc : List A) :
    (sortStableAux lt acc l).Perm (acc ++ l) := by
  induction l generalizing acc with
  | nil => simp [sortStableAux]
  | cons x xs ih =>
    simp only [sortStableAux]
    refine (ih (insStable lt x acc)).trans ?_
    refine (((insStable_perm lt x acc).append_right xs).trans ?_)
    exact List.perm_middle.symm

theorem sortStable_perm {A : Type} (lt : A → A → Bool) (l : List A) :
    (sortStable lt l).Perm l := by
  simpa [sortStable] using sortStableAux_perm lt l []

theorem insStable_pairwise {A : Type} (lt : A → A → Bool) (le : A → A → Prop)
    (hlt : ∀ a b, lt a b = true → le a b)
    (hnlt : ∀ a b, lt a b = false → le b a)
    (htrans : ∀ a b c, le a b → le b c → le a c)
    (x : A) (l : List A) (hl : l.Pairwise le) :
    (insStable lt x l).Pairwise le := by
  induction l with
  | nil => simp [insStable]
  | cons y ys ih =>
    rw [List.pairwise_cons] at hl
    obtain ⟨hy, hys⟩ := hl
    simp only [insStable]
    by_cases h : lt x y = true
    · rw [if_pos h]
      refine List.pairwise_cons.2 ⟨?_, List.pairwise_cons.2 ⟨hy, hys⟩⟩
      intro z hz
      rcases List.mem_cons.1 hz with rfl | hz
      · exact hlt _ _ h
      · exact htrans _ _ _ (hlt _ _ h) (hy z hz)
    · have h' : lt x y = false := by simpa using h
      rw [if_neg (by simp [h'])]
      refine List.pairwise_cons.2 ⟨?_, ih hys⟩
      intro z hz
      have hz' := (insStable_perm lt x ys).mem_iff.1 hz
      rcases List.mem_cons.1 hz' with rfl | hz'
      · exact hnlt _ _ h'
      · exact hy z hz'

theorem sortStableAux_pairwise {A : Type} (lt : A → A → Bool) (le : A → A → Prop)
    (hlt : ∀ a b, lt a b = true → le a b)
    (hnlt : ∀ a b, lt a b = false → le b a)
    (htrans : ∀ a b c, le a b → le b c → le a c)
    (l acc : List A) (hacc : acc.Pairwise le) :
    (sortStableAux lt acc l).Pairwise le := by
  induction l generalizing acc with
  | nil => simpa [sortStableAux] using hacc
  | cons x xs ih =>
    simp only [sortStableAux]
    exact ih _ (insStable_pairwise lt le hlt hnlt htrans x acc hacc)

theorem sortStable_pairwise {A : Type} (lt : A → A → Bool) (le : A → A → Prop)
    (hlt : ∀ a b, lt a b = true → le a b)
    (hnlt : ∀ a b, lt a b = false → le b a)
    (htrans : ∀ a b c, le a b → le b c → le a c)
    (l : List A) :
    (sortStable lt l).Pairwise le :=
  sortStableAux_pairwise lt le hlt hnlt htrans l [] (List.Pairwise.nil)

theorem insStable_filter {A : Type} (lt : A → A → Bool) (le : A → A → Prop)
    (q : A → Bool)
    (hq0 : ∀ a b, q a = true → lt a b = true → q b = false)
    (hq : ∀ a b c, q a = true → lt a b = true → le b c → q c = false)
    (x : A) (l : List A) (hl : l.Pairwise le) :
    (insStable lt x l).filter q = if q x then l.filter q ++ [x] else l.filter q := by
  induction l with
  | nil => by_cases h : q x = true <;> simp [insStable, h]
  | cons y ys ih =>
    rw [List.pairwise_cons] at hl
    obtain ⟨hy, hys⟩ := hl
    simp only [insStable]
    by_cases h : lt x y = true
    · rw [if_pos h]
      by_cases hqx : q x = true
      · have hnil : (y :: ys).filter q = [] := by
          refine List.filter_eq_nil_iff.2 ?_
          intro z hz
          rcases List.mem_cons.1 hz with rfl | hz
          · simp [hq0 _ _ hqx h]
          · simp [hq _ _ _ hqx h (hy z hz)]
        simp [List.filter_cons, hqx, hnil]
      · have hqx' : q x = false := by simpa using hqx
        simp [List.filter_cons, hqx']
    · have h' : lt x y = false := by simpa using h
      rw [if_neg (by simp [h'])]
      rw [List.filter_cons, List.filter_cons, ih hys]
      by_cases hqx : q x = true <;> by_cases hqy : q y = true <;>
        simp [hqx, hqy]

theorem sortStableAux_filter {A : Type} (lt : A → A → Bool) (le : A → A → Prop)
    (q : A → Bool)
    (hlt : ∀ a b, lt a b = true → le a b)
    (hnlt : ∀ a b, lt a b = false → le b a)
    (htrans : ∀ a b c, le a b → le b c → le a c)
    (hq0 : ∀ a b, q a = true → lt a b = true → q b = false)
    (hq : ∀ a b c, q a = true → lt a b = true → le b c → q c = false)
    (l acc : List A) (hacc : acc.Pairwise le) :
    (sortStableAux lt acc l).filter q = acc.filter q ++ l.filter q := by
  induction l generalizing acc with
  | nil => simp [sortStableAux]
  | cons x xs ih =>
    simp only [sortStableAux]
    rw [ih _ (insStable_pairwise lt le hlt hnlt htrans x acc hacc)]
    rw [insStable_filter lt le q hq0 hq x acc hacc, List.filter_cons]
    by_cases hqx : q x = true <;> simp [hqx]

theorem sortStable_filter {A : Type} (lt : A → A → Bool) (le : A → A → Prop)
    (q : A → Bool)
    (hlt : ∀ a b, lt a b = true → le a b)
    (hnlt : ∀ a b, lt a b = false → le b a)
    (htrans : ∀ a b c, le a b → le b c → le a c)
    (hq0 : ∀ a b, q a = true → lt a b = true → q b = false)
    (hq : ∀ a b c, q a = true → lt a b = true → le b c → q c = false)
    (l : List A) :
    (sortStable lt l).filter q = l.filter q := by
  simpa [sortStable] using
    sortStableAux_filter lt le q hlt hnlt htrans hq0 hq l [] (List.Pairwise.nil)

theorem sortByPrio_perm (l : List (String × Int)) : (sortByPrio l).Perm l :=
  sortStable_perm prioLt l

theorem sortByPrio_pairwise (l : List (String × Int)) :
    (sortByPrio l).Pairwise (fun a b => a.2 ≤ b.2) :=
  sortStable_pairwise prioLt (fun a b => a.2 ≤ b.2)
    (fun a b h => by
      simp only [prioLt, decide_eq_true_eq] at h
      exact le_of_lt h)
    (fun a b h => by
      simp only [prioLt, decide_eq_false_iff_not] at h
      exact le_of_not_lt h)
    (fun _ _ _ hab hbc => le_trans hab hbc) l

theorem sortByPrio_filter_eq (l : List (String × Int)) (c : Int) :
    (sortByPrio l).filter (fun y => decide (y.2 = c)) =
      l.filter (fun y => decide (y.2 = c)) := by
  refine sortStable_filter prioLt (fun a b => a.2 ≤ b.2) _
    (fun a b h => by
      simp only [prioLt, decide_eq_true_eq] at h
      exact le_of_lt h)
    (fun a b h => by
      simp only [prioLt, decide_eq_false_iff_not] at h
      exact le_of_not_lt h)
    (fun _ _ _ hab hbc => le_trans hab hbc) ?_ ?_ l
  · intro a b ha hb
    have ha' : a.2 = c := of_decide_eq_true ha
    have hb' : a.2 < b.2 := by
      simp only [prioLt, decide_eq_true_eq] at hb
      exact hb
    exact decide_eq_false (by omega)
  · intro a b c' ha hb hbc
    have ha' : a.2 = c := of_decide_eq_true ha
    have hb' : a.2 < b.2 := by
      simp only [prioLt, decide_eq_true_eq] at hb
      exact hb
    exact decide_eq_false (by omega)

theorem sortByPrio_headI_spec (l : List (String × Int)) (hl : l ≠ []) :
    (sortByPrio l).headI ∈ l ∧ ∀ y ∈ l, (sortByPrio l).headI.2 ≤ y.2 := by
  have hp := sortByPrio_perm l
  have hs := sortByPrio_pairwise l
  have hne : sortByPrio l ≠ [] := by
    intro h
    rw [h] at hp
    exact hl hp.symm.eq_nil
  cases hsl : sortByPrio l with
  | nil => exact absurd hsl hne
  | cons h t =>
    rw [hsl] at hp hs
    rw [List.pairwise_cons] at hs
    constructor
    · exact hp.mem_iff.1 (by simp [List.headI])
    · intro y hy
      have hy' := hp.mem_iff.2 hy
      rcases List.mem_cons.1 hy' with rfl | hy'
      · simp [List.headI]
      · simpa [List.headI] using hs.1 y hy'

theorem matchedBuckets_mem (bs : Catalog) (cl : String) :
    ∀ e ∈ matchedBuckets bs cl,
      e.1 ∈ bs.map Prod.fst ∧ e.1 ≠ "General Sentiment" := by
  induction bs with
  | nil => simp [matchedBuckets]
  | cons hd rest ih =>
    obtain ⟨n, b⟩ := hd
    intro e he
    simp only [matchedBuckets] at he
    by_cases hgs : n = "General Sentiment"
    · rw [if_pos hgs] at he
      have := ih e he
      exact ⟨List.mem_cons_of_mem _ this.1, this.2⟩
    · rw [if_neg hgs] at he
      by_cases hany : b.keywords.any (fun k => pyIn k cl) = true
      · rw [if_pos hany] at he
        rcases List.mem_cons.1 he with rfl | he
        · exact ⟨by simp, hgs⟩
        · have := ih e he
          exact ⟨List.mem_cons_of_mem _ this.1, this.2⟩
      · rw [if_neg (by simpa using hany)] at he
        have := ih e he
        exact ⟨List.mem_cons_of_mem _ this.1, this.2⟩

theorem lookupBucket_mem (bs : Catalog) (name : String) (b : Bucket)
    (h : lookupBucket bs name = some b) : name ∈ bs.map Prod.fst := by
  induction bs with
  | nil => simp [lookupBucket] at h
  | cons hd rest ih =>
    obtain ⟨n, b0⟩ := hd
    simp only [lookupBucket] at h
    by_cases hn : n = name
    · subst hn; simp
    · rw [if_neg hn] at h
      exact List.mem_cons_of_mem _ (ih h)

theorem keysIndex_of_mem (bs : Catalog) (name : String)
    (h : name ∈ bs.map Prod.fst) :
    ∃ i, keysIndex bs name = some i ∧ i < bs.length := by
  induction bs with
  | nil => simp at h
  | cons hd rest ih =>
    obtain ⟨n, b⟩ := hd
    simp only [keysIndex]
    by_cases hn : n = name
    · exact ⟨0, by rw [if_pos hn], by simp⟩
    · have h' : name ∈ rest.map Prod.fst := by
        rw [List.map_cons] at h
        rcases List.mem_cons.1 h with h0 | h0
        · exact absurd h0.symm hn
        · exact h0
      obtain ⟨i, hi, hlt⟩ := ih h'
      refine ⟨i + 1, ?_, by simpa using Nat.succ_lt_succ hlt⟩
      rw [if_neg hn, hi]
      rfl

theorem bestFold_spec {A : Type} (f : A → ℚ) (l : List A) :
    ∀ (best : Option A) (mx : ℚ),
      (bestFold f l (best, mx) = (best, mx) ∧ ∀ a ∈ l, f a ≤ mx) ∨
      (∃ k, ∃ hk : k < l.length,
        bestFold f l (best, mx) = (some (l.get ⟨k, hk⟩), f (l.get ⟨k, hk⟩)) ∧
        mx < f (l.get ⟨k, hk⟩) ∧
        (∀ a ∈ l, f a ≤ f (l.get ⟨k, hk⟩)) ∧
        (∀ j (hj : j < l.length), j < k →
          f (l.get ⟨j, hj⟩) < f (l.get ⟨k, hk⟩))) := by
  induction l with
  | nil =>
    intro best mx
    exact Or.inl ⟨rfl, by simp⟩
  | cons a rest ih =>
    intro best mx
    simp only [bestFold]
    by_cases hcmp : mx < f a
    · rw [if_pos hcmp]
      rcases ih (some a) (f a) with ⟨heq, hall⟩ | ⟨k, hk, heq, hlt, hall, hfirst⟩
      · refine Or.inr ⟨0, by simp, ?_, ?_, ?_, ?_⟩
        · simpa [List.get] using heq
        · simpa [List.get] using hcmp
        · intro x hx
          rcases List.mem_cons.1 hx with rfl | hx
          · simp [List.get]
          · simpa [List.get] using hall x hx
        · intro j hj hj0
          omega
      · refine Or.inr ⟨k + 1, by simpa using Nat.succ_lt_succ hk, ?_, ?_, ?_, ?_⟩
        · simpa [List.get] using heq
        · exact lt_trans hcmp (by simpa [List.get] using hlt)
        · intro x hx
          rcases List.mem_cons.1 hx with rfl | hx
          · exact le_of_lt (by simpa [List.get] using hlt)
          · simpa [List.get] using hall x hx
        · intro j hj hjk
          match j with
          | 0 => simpa [List.get] using hlt
          | j' + 1 =>
            exact hfirst j' (by omega) (by omega)
    · rw [if_neg hcmp]
      rcases ih best mx with ⟨heq, hall⟩ | ⟨k, hk, heq, hlt, hall, hfirst⟩
      · refine Or.inl ⟨heq, ?_⟩
        intro x hx
        rcases List.mem_cons.1 hx with rfl | hx
        · exact le_of_not_lt hcmp
        · exact hall x hx
      · refine Or.inr ⟨k + 1, by simpa using Nat.succ_lt_succ hk, ?_, ?_, ?_, ?_⟩
        · simpa [List.get] using heq
        · simpa [List.get] using hlt
        · intro x hx
          rcases List.mem_cons.1 hx with rfl | hx
          · exact le_trans (le_of_not_lt hcmp) (le_of_lt (by simpa [List.get] using hlt))
          · simpa [List.get] using hall x hx
        · intro j hj hjk
          match j with
          | 0 =>
            exact lt_of_le_of_lt (le_of_not_lt hcmp) (by simpa [List.get] using hlt)
          | j' + 1 =>
            exact hfirst j' (by omega) (by omega)

theorem bestFold_some_ne_none {A : Type} (f : A → ℚ) (l : List A) :
    ∀ (q : A) (mx : ℚ), (bestFold f l (some q, mx)).1 ≠ none := by
  induction l with
  | nil => intro q mx; simp [bestFold]
  | cons a rest ih =>
    intro q mx
    simp only [bestFold]
    by_cases hcmp : mx < f a
    · rw [if_pos hcmp]; exact ih a (f a)
    · rw [if_neg hcmp]; exact ih q mx

theorem bestFold_shift {A : Type} (f : A → ℚ) (l : List A) :
    ∀ (q : A) (mx : ℚ),
      (bestFold f l (some q, mx)).1 =
        match (bestFold f l (none, mx)).1 with
        | none => some q
        | some p => some p := by
  induction l with
  | nil => intro q mx; rfl
  | cons a rest ih =>
    intro q mx
    simp only [bestFold]
    by_cases hcmp : mx < f a
    · simp only [if_pos hcmp]
      cases hx : (bestFold f rest (some a, f a)).1 with
      | none => exact absurd hx (bestFold_some_ne_none f rest a (f a))
      | some p => simp [hx]
    · simp only [if_neg hcmp]
      exact ih q mx

theorem nsEnum_mem (bs : Catalog) :
    ∀ (i : Nat) (p : Nat × String), p ∈ nsEnum i bs →
      p.2 ∈ bs.map Prod.fst ∧ p.2 ≠ "General Sentiment" ∧
      i ≤ p.1 ∧ p.1 < i + bs.length := by
  induction bs with
  | nil => simp [nsEnum]
  | cons hd rest ih =>
    obtain ⟨n, b⟩ := hd
    intro i p hp
    simp only [nsEnum] at hp
    by_cases hgs : n = "General Sentiment"
    · rw [if_pos hgs] at hp
      obtain ⟨h1, h2, h3, h4⟩ := ih (i + 1) p hp
      exact ⟨List.mem_cons_of_mem _ h1, h2, by omega,
        by simp only [List.length_cons]; omega⟩
    · rw [if_neg hgs] at hp
      rcases List.mem_cons.1 hp with rfl | hp
      · exact ⟨by simp, hgs, le_refl _, by simp only [List.length_cons]; omega⟩
      · obtain ⟨h1, h2, h3, h4⟩ := ih (i + 1) p hp
        exact ⟨List.mem_cons_of_mem _ h1, h2, by omega,
          by simp only [List.length_cons]; omega⟩

theorem tieLoop_eq_bestFold {V : Type} (sim : V → V → ℚ) (rEmb : V) (bs : Catalog)
    (embs : List V) (names : List String) :
    ∀ (best : Option String) (mx : ℚ),
      (∀ nm ∈ names, ∃ i, keysIndex bs nm = some i ∧ i < embs.length) →
      tieLoop sim rEmb bs embs names best mx =
        .ok ((bestFold (simAtName sim rEmb bs embs) names (best, mx)).1) := by
  induction names with
  | nil => intro best mx _; rfl
  | cons nm rest ih =>
    intro best mx hidx
    obtain ⟨i, hki, hilt⟩ := hidx nm (by simp)
    have hidx' : ∀ x ∈ rest, ∃ j, keysIndex bs x = some j ∧ j < embs.length :=
      fun x hx => hidx x (List.mem_cons_of_mem _ hx)
    cases hg : embs[i]? with
    | none =>
      exfalso
      rw [List.getElem?_eq_none_iff] at hg
      omega
    | some e =>
      have hf : simAtName sim rEmb bs embs nm = sim rEmb e := by
        simp [simAtName, hki, simIdx, hg]
      simp only [tieLoop, hki, hg, bestFold, hf]
      by_cases hcmp : mx < sim rEmb e
      · simp only [if_pos hcmp]
        exact ih (some nm) (sim rEmb e) hidx'
      · simp only [if_neg hcmp]
        exact ih best mx hidx'

theorem fbLoop_eq_bestFold {V : Type} (sim : V → V → ℚ) (rEmb : V) (embs : List V) :
    ∀ (rest : Catalog) (i : Nat) (best : String) (mx : ℚ),
      i + rest.length ≤ embs.length →
      fbLoop sim rEmb embs i rest best mx =
        .ok (match (bestFold (fun p => simIdx sim rEmb embs p.1)
                    (nsEnum i rest) (none, mx)).1 with
             | none => best
             | some p => p.2) := by
  intro rest
  induction rest with
  | nil => intro i best mx _; rfl
  | cons hd tl ih =>
    obtain ⟨n, b⟩ := hd
    intro i best mx hlen
    rw [List.length_cons] at hlen
    simp only [fbLoop, nsEnum]
    by_cases hgs : n = "General Sentiment"
    · simp only [if_pos hgs]
      exact ih (i + 1) best mx (by omega)
    · simp only [if_neg hgs]
      cases hg : embs[i]? with
      | none =>
        exfalso
        rw [List.getElem?_eq_none_iff] at hg
        omega
      | some e =>
        have hf : simIdx sim rEmb embs i = sim rEmb e := by simp [simIdx, hg]
        simp only [bestFold, hf]
        by_cases hcmp : mx < sim rEmb e
        · simp only [if_pos hcmp]
          rw [ih (i + 1) n (sim rEmb e) (by omega)]
          rw [bestFold_shift]
          cases hX : (bestFold (fun p => simIdx sim rEmb embs p.1)
              (nsEnum (i + 1) tl) (none, sim rEmb e)).1 with
          | none => simp
          | some p => simp
        · simp only [if_neg hcmp]
          exact ih (i + 1) best mx (by omega)

theorem tieLoop_ok_cases {V : Type} (sim : V → V → ℚ) (rEmb : V) (bs : Catalog)
    (embs : List V) :
    ∀ (names : List String) (best : Option String) (mx : ℚ) (out : Option String),
      tieLoop sim rEmb bs embs names best mx = .ok out →
      out = best ∨ ∃ nm ∈ names, out = some nm := by
  intro names
  induction names with
  | nil =>
    intro best mx out h
    simp only [tieLoop] at h
    exact Or.inl (Except.ok.inj h).symm
  | cons nm rest ih =>
    intro best mx out h
    cases hki : keysIndex bs nm with
    | none =>
      simp only [tieLoop, hki] at h
      exact absurd h (by simp)
    | some i =>
      cases hg : embs[i]? with
      | none =>
        simp only [tieLoop, hki, hg] at h
        exact absurd h (by simp)
      | some e =>
        by_cases hcmp : mx < sim rEmb e
        · simp only [tieLoop, hki, hg, if_pos hcmp] at h
          rcases ih (some nm) (sim rEmb e) out h with hout | ⟨x, hx, hout⟩
          · exact Or.inr ⟨nm, by simp, hout⟩
          · exact Or.inr ⟨x, List.mem_cons_of_mem _ hx, hout⟩
        · simp only [tieLoop, hki, hg, if_neg hcmp] at h
          rcases ih best mx out h with hout | ⟨x, hx, hout⟩
          · exact Or.inl hout
          · exact Or.inr ⟨x, List.mem_cons_of_mem _ hx, hout⟩

theorem fbLoop_ok_cases {V : Type} (sim : V → V → ℚ) (rEmb : V) (embs : List V) :
    ∀ (rest : Catalog) (i : Nat) (best : String) (mx : ℚ) (out : String),
      fbLoop sim rEmb embs i rest best mx = .ok out →
      out = best ∨ ∃ n b, (n, b) ∈ rest ∧ n ≠ "General Sentiment" ∧ out = n := by
  intro rest
  induction rest with
  | nil =>
    intro i best mx out h
    simp only [fbLoop] at h
    exact Or.inl (Except.ok.inj h).symm
  | cons hd tl ih =>
    obtain ⟨n, b⟩ := hd
    intro i best mx out h
    by_cases hgs : n = "General Sentiment"
    · simp only [fbLoop, if_pos hgs] at h
      rcases ih (i + 1) best mx out h with hout | ⟨x, bx, hx, hne, hout⟩
      · exact Or.inl hout
      · exact Or.inr ⟨x, bx, List.mem_cons_of_mem _ hx, hne, hout⟩
    · cases hg : embs[i]? with
      | none =>
        simp only [fbLoop, if_neg hgs, hg] at h
        exact absurd h (by simp)
      | some e =>
        by_cases hcmp : mx < sim rEmb e
        · simp only [fbLoop, if_neg hgs, hg, if_pos hcmp] at h
          rcases ih (i + 1) n (sim rEmb e) out h with hout | ⟨x, bx, hx, hne, hout⟩
          · exact Or.inr ⟨n, b, by simp, hgs, hout⟩
          · exact Or.inr ⟨x, bx, List.mem_cons_of_mem _ hx, hne, hout⟩
        · simp only [fbLoop, if_neg hgs, hg, if_neg hcmp] at h
          rcases ih (i + 1) best mx out h with hout | ⟨x, bx, hx, hne, hout⟩
          · exact Or.inl hout
          · exact Or.inr ⟨x, bx, List.mem_cons_of_mem _ hx, hne, hout⟩

theorem assign_unfold {V : Type} (sim : V → V → ℚ) (embed : String → V)
    (s : String) (bs : Catalog) (embs : List V) (gb : Bucket)
    (hgs : lookupBucket bs "General Sentiment" = some gb)
    (hnb : pyBlank s = false) :
    assign sim embed (some s) bs embs =
      (if matchedBuckets bs (pyLower s) = [] then
        (if gb.keywords.any (fun k => pyIn k (pyLower s)) then
          .ok (some "General Sentiment")
        else (fbLoop sim (embed s) embs 0 bs "Uncategorized" (-1)).map some)
      else
        match ((sortByPrio (matchedBuckets bs (pyLower s))).filter
            (fun y => y.2 = (sortByPrio (matchedBuckets bs (pyLower s))).headI.2)).map
            Prod.fst with
        | [t] => .ok (some t)
        | _ =>
          tieLoop sim (embed s) bs embs
            (((sortByPrio (matchedBuckets bs (pyLower s))).filter
              (fun y => y.2 = (sortByPrio (matchedBuckets bs (pyLower s))).headI.2)).map
              Prod.fst)
            none (-1)) := by
  simp [assign, sentimentScan, hgs, hnb]

theorem top_name_mem (bs : Catalog) (cl : String) (q : String × Int → Bool)
    (t : String)
    (ht : t ∈ ((sortByPrio (matchedBuckets bs cl)).filter q).map Prod.fst) :
    t ∈ bs.map Prod.fst ∧ t ≠ "General Sentiment" := by
  obtain ⟨y, hy, rfl⟩ := List.mem_map.1 ht
  have hy' : y ∈ matchedBuckets bs cl :=
    (sortByPrio_perm _).mem_iff.1 (List.mem_of_mem_filter hy)
  exact matchedBuckets_mem bs cl y hy'

theorem simAtName_gt_neg_one {V : Type} (sim : V → V → ℚ) (rEmb : V)
    (bs : Catalog) (embs : List V) (hsim : ∀ v w, -1 < sim v w) (nm : String) :
    -1 < simAtName sim rEmb bs embs nm := by
  cases hki : keysIndex bs nm with
  | none =>
    simp only [simAtName, hki]
    norm_num
  | some i =>
    cases hg : embs[i]? with
    | none =>
      simp only [simAtName, simIdx, hki, hg]
      norm_num
    | some e =>
      simp only [simAtName, simIdx, hki, hg]
      exact hsim _ _

theorem tiedCandidates_keysIndex {V : Type} (bs : Catalog) (cl : String) (p : Int)
    (embs : List V) (hpar : bs.length ≤ embs.length) :
    ∀ nm ∈ tiedCandidates bs cl p,
      ∃ i, keysIndex bs nm = some i ∧ i < embs.length := by
  intro nm hnm
  obtain ⟨y, hy, rfl⟩ := List.mem_map.1 hnm
  have hy' : y ∈ matchedBuckets bs cl := List.mem_of_mem_filter hy
  obtain ⟨hmem, _⟩ := matchedBuckets_mem bs cl y hy'
  obtain ⟨i, hi, hlt⟩ := keysIndex_of_mem bs y.1 hmem
  exact ⟨i, hi, lt_of_lt_of_le hlt hpar⟩

/-- C3: Empty-input law: a missing review content, or one whose characters are
all whitespace, makes assign return the sentinel "Uncategorized" at once, for
every catalog, embedding provider, similarity kernel and bucket-embedding
array; no embedding is consulted since the result is the same for all of them. -/
theorem C3_empty_input_law {V : Type} (sim : V → V → ℚ) (embed : String → V)
    (bs : Catalog) (embs : List V) (content : Option String)
    (h : content = none ∨ ∃ s, content = some s ∧ pyBlank s = true) :
    assign sim embed content bs embs = .ok (some "Uncategorized") := by
  rcases h with rfl | ⟨s, rfl, hb⟩
  · rfl
  · simp [assign, hb]

theorem C3_empty_input_law_witness :
    ((some "  " : Option String) = none ∨
      ∃ s, (some "  " : Option String) = some s ∧ pyBlank s = true) ∧
    assign simZ embZ (some "  ") OPERATIONAL_BUCKETS [] = .ok (some "Uncategorized") :=
  ⟨Or.inr ⟨"  ", rfl, by decide⟩,
   C3_empty_input_law simZ embZ OPERATIONAL_BUCKETS [] (some "  ")
     (Or.inr ⟨"  ", rfl, by decide⟩)⟩

/-- C1: the claim fails on the code, and the catalog itself shows the code is
at fault: keyword matching lowercases only the content and tests the keyword
verbatim, so the keyword "KYC" of the Onboarding/KYC bucket occurs
case-insensitively in the content "KYC pending" yet the prioritized scan of
the real catalog records no hit at all, while the all-lowercase keyword
"login issue" is matched whatever the letter case of the content. -/
theorem C1_keyword_case_bug :
    ciOccurs "KYC" "KYC pending" = true ∧
    pyIn "KYC" (pyLower "KYC pending") = false ∧
    matchedBuckets OPERATIONAL_BUCKETS (pyLower "KYC pending") = [] ∧
    matchedBuckets OPERATIONAL_BUCKETS (pyLower "LOGIN ISSUE now") =
      [("Onboarding/KYC", 4)] := by
  refine ⟨by decide, by decide, by rfl, by rfl⟩

/-- C2 as stated is false: assign is not total on every non-empty catalog with
parallel embeddings; a non-empty catalog without a bucket named
"General Sentiment" makes the Python code raise KeyError at the sentiment
pre-check, so no name is returned at all. -/
theorem C2_counterexample :
    assign simZ embZ (some "hello")
      [("Order Execution", { keywords := ["fail"], priority := 1 })] [()] =
      .error () := by rfl

/-- C2 amended: for every review content and every catalog containing the
distinguished "General Sentiment" bucket, with bucket embeddings covering the
catalog and a similarity kernel exceeding the -1 loop sentinel (as the cosine
similarity of the nonnegative simulated embeddings does), assign returns
exactly one name, drawn from the catalog bucket names or "Uncategorized". -/
theorem C2_totality {V : Type} (sim : V → V → ℚ) (embed : String → V)
    (content : Option String) (bs : Catalog) (embs : List V) (gb : Bucket)
    (hgs : lookupBucket bs "General Sentiment" = some gb)
    (hpar : bs.length ≤ embs.length)
    (hsim : ∀ v w, -1 < sim v w) :
    ∃ name, assign sim embed content bs embs = .ok (some name) ∧
      (name ∈ bs.map Prod.fst ∨ name = "Uncategorized") := by
  rcases content with _ | s
  · exact ⟨"Uncategorized", rfl, Or.inr rfl⟩
  by_cases hnb : pyBlank s = true
  · exact ⟨"Uncategorized", by simp [assign, hnb], Or.inr rfl⟩
  have hnb' : pyBlank s = false := by simpa using hnb
  rw [assign_unfold sim embed s bs embs gb hgs hnb']
  by_cases hM : matchedBuckets bs (pyLower s) = []
  · rw [if_pos hM]
    by_cases hgm : gb.keywords.any (fun k => pyIn k (pyLower s)) = true
    · rw [if_pos hgm]
      exact ⟨"General Sentiment", rfl, Or.inl (lookupBucket_mem bs _ gb hgs)⟩
    · rw [if_neg hgm]
      rw [fbLoop_eq_bestFold sim (embed s) embs bs 0 "Uncategorized" (-1)
          (by simpa using hpar)]
      rcases bestFold_spec (fun p => simIdx sim (embed s) embs p.1) (nsEnum 0 bs)
          none (-1) with ⟨heq, _⟩ | ⟨k, hk, heq, _, _, _⟩
      · refine ⟨"Uncategorized", ?_, Or.inr rfl⟩
        rw [heq]
        rfl
      · refine ⟨((nsEnum 0 bs).get ⟨k, hk⟩).2, ?_, Or.inl ?_⟩
        · rw [heq]
          rfl
        · exact (nsEnum_mem bs 0 _ (List.get_mem _ k hk)).1
  · rw [if_neg hM]
    have hne : sortByPrio (matchedBuckets bs (pyLower s)) ≠ [] := by
      intro h
      have hp := sortByPrio_perm (matchedBuckets bs (pyLower s))
      rw [h] at hp
      exact hM hp.symm.eq_nil
    have htopne :
        ((sortByPrio (matchedBuckets bs (pyLower s))).filter
          (fun y => y.2 = (sortByPrio (matchedBuckets bs (pyLower s))).headI.2)).map
          Prod.fst ≠ [] := by
      have hh : (sortByPrio (matchedBuckets bs (pyLower s))).headI ∈
          (sortByPrio (matchedBuckets bs (pyLower s))).filter
            (fun y => y.2 = (sortByPrio (matchedBuckets bs (pyLower s))).headI.2) := by
        refine List.mem_filter.2 ⟨?_, by simp⟩
        have hmem := (sortByPrio_headI_spec _ hM).1
        exact (sortByPrio_perm _).mem_iff.2 hmem
      intro habs
      rw [List.map_eq_nil_iff] at habs
      rw [habs] at hh
      simp at hh
    cases htop : ((sortByPrio (matchedBuckets bs (pyLower s))).filter
        (fun y => y.2 = (sortByPrio (matchedBuckets bs (pyLower s))).headI.2)).map
        Prod.fst with
    | nil => exact absurd htop htopne
    | cons t1 tt =>
      cases tt with
      | nil =>
        refine ⟨t1, rfl, Or.inl ?_⟩
        have : t1 ∈ [t1] := by simp
        rw [← htop] at this
        exact (top_name_mem bs (pyLower s) _ t1 this).1
      | cons t2 tt2 =>
        have hidx : ∀ nm ∈ t1 :: t2 :: tt2,
            ∃ i, keysIndex bs nm = some i ∧ i < embs.length := by
          intro nm hnm
          rw [← htop] at hnm
          obtain ⟨hmem, _⟩ := top_name_mem bs (pyLower s) _ nm hnm
          obtain ⟨i, hi, hlt⟩ := keysIndex_of_mem bs nm hmem
          exact ⟨i, hi, lt_of_lt_of_le hlt hpar⟩
        rw [tieLoop_eq_bestFold sim (embed s) bs embs (t1 :: t2 :: tt2) none (-1) hidx]
        rcases bestFold_spec (simAtName sim (embed s) bs embs) (t1 :: t2 :: tt2)
            none (-1) with ⟨_, hall⟩ | ⟨k, hk, heq, _, _, _⟩
        · exact absurd (hall t1 (by simp))
            (not_le.2 (simAtName_gt_neg_one sim (embed s) bs embs hsim t1))
        · have hmem0 := List.get_mem (t1 :: t2 :: tt2) k hk
          generalize hw : (t1 :: t2 :: tt2).get ⟨k, hk⟩ = w at heq hmem0
          rw [← htop] at hmem0
          refine ⟨w, ?_, Or.inl (top_name_mem bs (pyLower s) _ _ hmem0).1⟩
          rw [heq]

theorem C2_totality_witness :
    ∃ name, assign simZ embZ (some "it crashed and my money is gone")
        OPERATIONAL_BUCKETS [(), (), (), (), (), ()] = .ok (some name) ∧
      (name ∈ OPERATIONAL_BUCKETS.map Prod.fst ∨ name = "Uncategorized") :=
  C2_totality simZ embZ _ _ _ _ (by rfl) (by decide)
    (fun _ _ => by norm_num [simZ])

/-- C4: Priority dominance: when the prioritized keyword scan matches at least
one non-sentiment bucket and exactly one matched bucket attains the minimum
priority, assign returns that bucket at once, with the same result for every
embedding provider, similarity kernel and bucket-embeddings array; in
particular a review matching buckets of priorities 1 and 3 resolves to the
priority-1 bucket. -/
theorem C4_priority_dominance {V : Type} (sim : V → V → ℚ) (embed : String → V)
    (s : String) (bs : Catalog) (embs : List V) (gb : Bucket) (nm : String) (p : Int)
    (hgs : lookupBucket bs "General Sentiment" = some gb)
    (hnb : pyBlank s = false)
    (hmin : ∀ y ∈ matchedBuckets bs (pyLower s), p ≤ y.2)
    (huniq : (matchedBuckets bs (pyLower s)).filter (fun y => decide (y.2 = p)) =
      [(nm, p)]) :
    assign sim embed (some s) bs embs = .ok (some nm) := by
  have hmem : (nm, p) ∈ matchedBuckets bs (pyLower s) := by
    have h0 : (nm, p) ∈ (matchedBuckets bs (pyLower s)).filter
        (fun y => decide (y.2 = p)) := by
      rw [huniq]; simp
    exact List.mem_of_mem_filter h0
  have hM : matchedBuckets bs (pyLower s) ≠ [] := by
    intro h
    rw [h] at hmem
    simp at hmem
  rw [assign_unfold sim embed s bs embs gb hgs hnb, if_neg hM]
  obtain ⟨hhead_mem, hhead_min⟩ := sortByPrio_headI_spec _ hM
  have hp0 : (sortByPrio (matchedBuckets bs (pyLower s))).headI.2 = p :=
    le_antisymm (hhead_min (nm, p) hmem) (hmin _ hhead_mem)
  rw [hp0, sortByPrio_filter_eq, huniq]
  rfl

theorem C4_priority_dominance_witness :
    (∀ y ∈ matchedBuckets
        [("A", { keywords := ["slow"], priority := 1 }),
         ("B", { keywords := ["fee"], priority := 3 }),
         ("General Sentiment", { keywords := ["great"], priority := 99 })]
        (pyLower "app is slow and fee is high"), (1 : Int) ≤ y.2) ∧
    assign simZ embZ (some "app is slow and fee is high")
      [("A", { keywords := ["slow"], priority := 1 }),
       ("B", { keywords := ["fee"], priority := 3 }),
       ("General Sentiment", { keywords := ["great"], priority := 99 })]
      [(), (), ()] = .ok (some "A") :=
  ⟨by decide,
   C4_priority_dominance simZ embZ "app is slow and fee is high" _ _ _ "A" 1
     (by rfl) (by decide) (by decide) (by decide)⟩

/-- C6: Sentiment resolution: with the sentiment bucket present and non-blank
content, assign returns "General Sentiment" exactly when some sentiment
keyword occurs in the lowered content and the prioritized scan matches no
non-sentiment bucket; in particular a review matching both a sentiment keyword
and a priority-bucket keyword never resolves to the sentiment bucket. -/
theorem C6_sentiment_resolution {V : Type} (sim : V → V → ℚ) (embed : String → V)
    (s : String) (bs : Catalog) (embs : List V) (gb : Bucket)
    (hgs : lookupBucket bs "General Sentiment" = some gb)
    (hnb : pyBlank s = false) :
    assign sim embed (some s) bs embs = .ok (some "General Sentiment") ↔
      (gb.keywords.any (fun k => pyIn k (pyLower s)) = true ∧
       matchedBuckets bs (pyLower s) = []) := by
  rw [assign_unfold sim embed s bs embs gb hgs hnb]
  by_cases hM : matchedBuckets bs (pyLower s) = []
  · rw [if_pos hM]
    by_cases hgm : gb.keywords.any (fun k => pyIn k (pyLower s)) = true
    · rw [if_pos hgm]
      simp [hgm, hM]
    · rw [if_neg hgm]
      constructor
      · intro h
        exfalso
        cases hfb : fbLoop sim (embed s) embs 0 bs "Uncategorized" (-1) with
        | error e =>
          rw [hfb] at h
          exact absurd h (by simp [Except.map])
        | ok out =>
          rw [hfb] at h
          have hout : out = "General Sentiment" := by
            simpa [Except.map] using h
          rcases fbLoop_ok_cases sim (embed s) embs bs 0 "Uncategorized" (-1) out hfb
            with hu | ⟨n, b, _, hne, hn⟩
          · rw [hu] at hout
            exact absurd hout (by decide)
          · rw [hn] at hout
            exact hne hout
      · rintro ⟨h1, _⟩
        exact absurd h1 hgm
  · rw [if_neg hM]
    constructor
    · intro h
      exfalso
      cases htop : ((sortByPrio (matchedBuckets bs (pyLower s))).filter
          (fun y => y.2 = (sortByPrio (matchedBuckets bs (pyLower s))).headI.2)).map
          Prod.fst with
      | nil =>
        rw [htop] at h
        simp only [tieLoop] at h
        exact absurd (Except.ok.inj h) (by simp)
      | cons t1 tt =>
        cases tt with
        | nil =>
          rw [htop] at h
          have ht1 : t1 = "General Sentiment" := by
            simpa using Except.ok.inj h
          have hmem : t1 ∈ [t1] := by simp
          rw [← htop] at hmem
          exact (top_name_mem bs (pyLower s) _ t1 hmem).2 ht1
        | cons t2 tt2 =>
          rw [htop] at h
          rcases tieLoop_ok_cases sim (embed s) bs embs (t1 :: t2 :: tt2) none (-1)
              (some "General Sentiment") h with hout | ⟨x, hx, hout⟩
          · exact absurd hout (by simp)
          · have hxg : x = "General Sentiment" := (Option.some.inj hout).symm
            rw [← htop] at hx
            exact (top_name_mem bs (pyLower s) _ x hx).2 hxg
    · rintro ⟨_, h2⟩
      exact absurd h2 hM

theorem C6_sentiment_resolution_witness :
    assign simZ embZ (some "superb experience") OPERATIONAL_BUCKETS [] =
      .ok (some "General Sentiment") :=
  (C6_sentiment_resolution simZ embZ "superb experience" OPERATIONAL_BUCKETS []
    _ (by rfl) (by decide)).2 ⟨by decide, by rfl⟩

theorem assign_tieLoop {V : Type} (sim : V → V → ℚ) (embed : String → V)
    (s : String) (bs : Catalog) (embs : List V) (gb : Bucket)
    (hgs : lookupBucket bs "General Sentiment" = some gb)
    (hnb : pyBlank s = false)
    (hM : matchedBuckets bs (pyLower s) ≠ [])
    (hshape : ∀ t, ((sortByPrio (matchedBuckets bs (pyLower s))).filter
        (fun y => y.2 = (sortByPrio (matchedBuckets bs (pyLower s))).headI.2)).map
        Prod.fst ≠ [t]) :
    assign sim embed (some s) bs embs =
      tieLoop sim (embed s) bs embs
        (((sortByPrio (matchedBuckets bs (pyLower s))).filter
          (fun y => y.2 = (sortByPrio (matchedBuckets bs (pyLower s))).headI.2)).map
          Prod.fst) none (-1) := by
  rw [assign_unfold sim embed s bs embs gb hgs hnb, if_neg hM]
  cases htop : ((sortByPrio (matchedBuckets bs (pyLower s))).filter
      (fun y => y.2 = (sortByPrio (matchedBuckets bs (pyLower s))).headI.2)).map
      Prod.fst with
  | nil => rfl
  | cons t tt =>
    cases tt with
    | nil => exact absurd htop (hshape t)
    | cons t2 tt2 => rfl

/-- C5: Scoped tie-break stability: when two or more matched buckets tie at
the minimum priority, assign returns a member of the tied candidate list
(which the stable sort keeps in scan order), namely the first candidate
attaining the maximum similarity between the review embedding and that
candidate's own bucket embedding; candidates outside the tied list play no
role, and among equal similarities the earliest tied candidate wins. -/
theorem C5_tie_break_stability {V : Type} (sim : V → V → ℚ) (embed : String → V)
    (s : String) (bs : Catalog) (embs : List V) (gb : Bucket) (p : Int)
    (hgs : lookupBucket bs "General Sentiment" = some gb)
    (hnb : pyBlank s = false)
    (hmin : ∀ y ∈ matchedBuckets bs (pyLower s), p ≤ y.2)
    (htwo : 2 ≤ (tiedCandidates bs (pyLower s) p).length)
    (hpar : bs.length ≤ embs.length)
    (hsim : ∀ nm ∈ tiedCandidates bs (pyLower s) p,
      -1 < simAtName sim (embed s) bs embs nm) :
    ∃ k, ∃ hk : k < (tiedCandidates bs (pyLower s) p).length,
      assign sim embed (some s) bs embs =
        .ok (some ((tiedCandidates bs (pyLower s) p).get ⟨k, hk⟩)) ∧
      (∀ nm ∈ tiedCandidates bs (pyLower s) p,
        simAtName sim (embed s) bs embs nm ≤
          simAtName sim (embed s) bs embs
            ((tiedCandidates bs (pyLower s) p).get ⟨k, hk⟩)) ∧
      (∀ j (hj : j < (tiedCandidates bs (pyLower s) p).length), j < k →
        simAtName sim (embed s) bs embs
            ((tiedCandidates bs (pyLower s) p).get ⟨j, hj⟩) <
          simAtName sim (embed s) bs embs
            ((tiedCandidates bs (pyLower s) p).get ⟨k, hk⟩)) := by
  have htne : tiedCandidates bs (pyLower s) p ≠ [] := by
    intro h
    rw [h] at htwo
    simp at htwo
  have hfil_ne : (matchedBuckets bs (pyLower s)).filter
      (fun y => decide (y.2 = p)) ≠ [] := by
    intro h
    exact htne (by simp [tiedCandidates, h])
  obtain ⟨y0, hy0⟩ := List.exists_mem_of_ne_nil _ hfil_ne
  have hy0m : y0 ∈ matchedBuckets bs (pyLower s) := List.mem_of_mem_filter hy0
  have hy0p : y0.2 = p := of_decide_eq_true (List.mem_filter.1 hy0).2
  have hM : matchedBuckets bs (pyLower s) ≠ [] := by
    intro h
    rw [h] at hy0m
    simp at hy0m
  obtain ⟨hhead_mem, hhead_min⟩ := sortByPrio_headI_spec _ hM
  have hp0 : (sortByPrio (matchedBuckets bs (pyLower s))).headI.2 = p := by
    refine le_antisymm ?_ (hmin _ hhead_mem)
    have := hhead_min y0 hy0m
    omega
  have htopeq : ((sortByPrio (matchedBuckets bs (pyLower s))).filter
      (fun y => y.2 = (sortByPrio (matchedBuckets bs (pyLower s))).headI.2)).map
      Prod.fst = tiedCandidates bs (pyLower s) p := by
    rw [hp0, sortByPrio_filter_eq]
    rfl
  have hshape : ∀ t, ((sortByPrio (matchedBuckets bs (pyLower s))).filter
      (fun y => y.2 = (sortByPrio (matchedBuckets bs (pyLower s))).headI.2)).map
      Prod.fst ≠ [t] := by
    intro t h
    rw [htopeq] at h
    rw [h] at htwo
    simp at htwo
  rw [assign_tieLoop sim embed s bs embs gb hgs hnb hM hshape, htopeq]
  rw [tieLoop_eq_bestFold sim (embed s) bs embs (tiedCandidates bs (pyLower s) p)
    none (-1) (tiedCandidates_keysIndex bs (pyLower s) p embs hpar)]
  rcases bestFold_spec (simAtName sim (embed s) bs embs)
      (tiedCandidates bs (pyLower s) p) none (-1)
    with ⟨_, hall⟩ | ⟨k, hk, heq, _, hall, hfirst⟩
  · obtain ⟨t1, ht1⟩ := List.exists_mem_of_ne_nil _ htne
    exact absurd (hall t1 ht1) (not_le.2 (hsim t1 ht1))
  · refine ⟨k, hk, ?_, hall, hfirst⟩
    rw [heq]

theorem C5_tie_break_stability_witness :
    ∃ k, ∃ hk : k < (tiedCandidates
        [("A", { keywords := ["xq"], priority := 1 }),
         ("B", { keywords := ["yq"], priority := 1 }),
         ("General Sentiment", { keywords := ["great"], priority := 99 })]
        (pyLower "xq and yq") 1).length,
      assign (fun _ b : ℚ => b) (fun _ => (1 : ℚ)) (some "xq and yq")
        [("A", { keywords := ["xq"], priority := 1 }),
         ("B", { keywords := ["yq"], priority := 1 }),
         ("General Sentiment", { keywords := ["great"], priority := 99 })]
        [(1 : ℚ), 2, 0] =
        .ok (some ((tiedCandidates
          [("A", { keywords := ["xq"], priority := 1 }),
           ("B", { keywords := ["yq"], priority := 1 }),
           ("General Sentiment", { keywords := ["great"], priority := 99 })]
          (pyLower "xq and yq") 1).get ⟨k, hk⟩)) ∧
      (∀ nm ∈ tiedCandidates
          [("A", { keywords := ["xq"], priority := 1 }),
           ("B", { keywords := ["yq"], priority := 1 }),
           ("General Sentiment", { keywords := ["great"], priority := 99 })]
          (pyLower "xq and yq") 1,
        simAtName (fun _ b : ℚ => b) ((fun _ => (1 : ℚ)) "xq and yq")
            [("A", { keywords := ["xq"], priority := 1 }),
             ("B", { keywords := ["yq"], priority := 1 }),
             ("General Sentiment", { keywords := ["great"], priority := 99 })]
            [(1 : ℚ), 2, 0] nm ≤
          simAtName (fun _ b : ℚ => b) ((fun _ => (1 : ℚ)) "xq and yq")
            [("A", { keywords := ["xq"], priority := 1 }),
             ("B", { keywords := ["yq"], priority := 1 }),
             ("General Sentiment", { keywords := ["great"], priority := 99 })]
            [(1 : ℚ), 2, 0] ((tiedCandidates
              [("A", { keywords := ["xq"], priority := 1 }),
               ("B", { keywords := ["yq"], priority := 1 }),
               ("General Sentiment", { keywords := ["great"], priority := 99 })]
              (pyLower "xq and yq") 1).get ⟨k, hk⟩)) ∧
      (∀ j (hj : j < (tiedCandidates
          [("A", { keywords := ["xq"], priority := 1 }),
           ("B", { keywords := ["yq"], priority := 1 }),
           ("General Sentiment", { keywords := ["great"], priority := 99 })]
          (pyLower "xq and yq") 1).length), j < k →
        simAtName (fun _ b : ℚ => b) ((fun _ => (1 : ℚ)) "xq and yq")
            [("A", { keywords := ["xq"], priority := 1 }),
             ("B", { keywords := ["yq"], priority := 1 }),
             ("General Sentiment", { keywords := ["great"], priority := 99 })]
            [(1 : ℚ), 2, 0] ((tiedCandidates
              [("A", { keywords := ["xq"], priority := 1 }),
               ("B", { keywords := ["yq"], priority := 1 }),
               ("General Sentiment", { keywords := ["great"], priority := 99 })]
              (pyLower "xq and yq") 1).get ⟨j, hj⟩) <
          simAtName (fun _ b : ℚ => b) ((fun _ => (1 : ℚ)) "xq and yq")
            [("A", { keywords := ["xq"], priority := 1 }),
             ("B", { keywords := ["yq"], priority := 1 }),
             ("General Sentiment", { keywords := ["great"], priority := 99 })]
            [(1 : ℚ), 2, 0] ((tiedCandidates
              [("A", { keywords := ["xq"], priority := 1 }),
               ("B", { keywords := ["yq"], priority := 1 }),
               ("General Sentiment", { keywords := ["great"], priority := 99 })]
              (pyLower "xq and yq") 1).get ⟨k, hk⟩)) :=
  C5_tie_break_stability (fun _ b : ℚ => b) (fun _ => (1 : ℚ)) "xq and yq"
    _ _ _ 1 (by rfl) (by decide) (by decide) (by decide) (by decide) (by decide)

/-- C7: Full embedding fallback: with non-blank content, no keyword match and
no sentiment match, assign scores the review embedding against every
non-sentiment bucket embedding and returns the first bucket attaining the
maximum similarity; the sentiment bucket is never returned on this path, and
when the catalog holds no non-sentiment bucket the sentinel "Uncategorized"
is returned. -/
theorem C7_full_fallback {V : Type} (sim : V → V → ℚ) (embed : String → V)
    (s : String) (bs : Catalog) (embs : List V) (gb : Bucket)
    (hgs : lookupBucket bs "General Sentiment" = some gb)
    (hnb : pyBlank s = false)
    (hm : matchedBuckets bs (pyLower s) = [])
    (hsent : gb.keywords.any (fun k => pyIn k (pyLower s)) = false)
    (hpar : bs.length ≤ embs.length)
    (hsim : ∀ p ∈ nsEnum 0 bs, -1 < simIdx sim (embed s) embs p.1) :
    (nsEnum 0 bs = [] →
      assign sim embed (some s) bs embs = .ok (some "Uncategorized")) ∧
    (nsEnum 0 bs ≠ [] → ∃ k, ∃ hk : k < (nsEnum 0 bs).length,
      assign sim embed (some s) bs embs =
        .ok (some ((nsEnum 0 bs).get ⟨k, hk⟩).2) ∧
      ((nsEnum 0 bs).get ⟨k, hk⟩).2 ≠ "General Sentiment" ∧
      (∀ p ∈ nsEnum 0 bs, simIdx sim (embed s) embs p.1 ≤
        simIdx sim (embed s) embs ((nsEnum 0 bs).get ⟨k, hk⟩).1) ∧
      (∀ j (hj : j < (nsEnum 0 bs).length), j < k →
        simIdx sim (embed s) embs ((nsEnum 0 bs).get ⟨j, hj⟩).1 <
          simIdx sim (embed s) embs ((nsEnum 0 bs).get ⟨k, hk⟩).1)) := by
  have hasgn : assign sim embed (some s) bs embs =
      (fbLoop sim (embed s) embs 0 bs "Uncategorized" (-1)).map some := by
    rw [assign_unfold sim embed s bs embs gb hgs hnb, if_pos hm,
      if_neg (by simp [hsent])]
  rw [fbLoop_eq_bestFold sim (embed s) embs bs 0 "Uncategorized" (-1)
    (by simpa using hpar)] at hasgn
  constructor
  · intro hempty
    rw [hasgn, hempty]
    rfl
  · intro hne
    rcases bestFold_spec (fun p => simIdx sim (embed s) embs p.1) (nsEnum 0 bs)
        none (-1) with ⟨_, hall⟩ | ⟨k, hk, heq, _, hall, hfirst⟩
    · obtain ⟨p1, hp1⟩ := List.exists_mem_of_ne_nil _ hne
      exact absurd (hall p1 hp1) (not_le.2 (hsim p1 hp1))
    · refine ⟨k, hk, ?_, ?_, hall, hfirst⟩
      · rw [hasgn, heq]
        rfl
      · exact (nsEnum_mem bs 0 _ (List.get_mem _ k hk)).2.1

theorem C7_full_fallback_witness :
    ∃ k, ∃ hk : k < (nsEnum 0
        [("A", { keywords := ["xq"], priority := 1 }),
         ("B", { keywords := ["yq"], priority := 2 }),
         ("General Sentiment", { keywords := ["great"], priority := 99 })]).length,
      assign (fun _ b : ℚ => b) (fun _ => (1 : ℚ)) (some "hello there")
        [("A", { keywords := ["xq"], priority := 1 }),
         ("B", { keywords := ["yq"], priority := 2 }),
         ("General Sentiment", { keywords := ["great"], priority := 99 })]
        [(3 : ℚ), 5, 0] =
        .ok (some ((nsEnum 0
          [("A", { keywords := ["xq"], priority := 1 }),
           ("B", { keywords := ["yq"], priority := 2 }),
           ("General Sentiment", { keywords := ["great"], priority := 99 })]).get
            ⟨k, hk⟩).2) ∧
      ((nsEnum 0
        [("A", { keywords := ["xq"], priority := 1 }),
         ("B", { keywords := ["yq"], priority := 2 }),
         ("General Sentiment", { keywords := ["great"], priority := 99 })]).get
          ⟨k, hk⟩).2 ≠ "General Sentiment" ∧
      (∀ p ∈ nsEnum 0
          [("A", { keywords := ["xq"], priority := 1 }),
           ("B", { keywords := ["yq"], priority := 2 }),
           ("General Sentiment", { keywords := ["great"], priority := 99 })],
        simIdx (fun _ b : ℚ => b) ((fun _ => (1 : ℚ)) "hello there")
            [(3 : ℚ), 5, 0] p.1 ≤
          simIdx (fun _ b : ℚ => b) ((fun _ => (1 : ℚ)) "hello there")
            [(3 : ℚ), 5, 0] ((nsEnum 0
              [("A", { keywords := ["xq"], priority := 1 }),
               ("B", { keywords := ["yq"], priority := 2 }),
               ("General Sentiment", { keywords := ["great"], priority := 99 })]).get
                ⟨k, hk⟩).1) ∧
      (∀ j (hj : j < (nsEnum 0
          [("A", { keywords := ["xq"], priority := 1 }),
           ("B", { keywords := ["yq"], priority := 2 }),
           ("General Sentiment", { keywords := ["great"], priority := 99 })]).length),
          j < k →
        simIdx (fun _ b : ℚ => b) ((fun _ => (1 : ℚ)) "hello there")
            [(3 : ℚ), 5, 0] ((nsEnum 0
              [("A", { keywords := ["xq"], priority := 1 }),
               ("B", { keywords := ["yq"], priority := 2 }),
               ("General Sentiment", { keywords := ["great"], priority := 99 })]).get
                ⟨j, hj⟩).1 <
          simIdx (fun _ b : ℚ => b) ((fun _ => (1 : ℚ)) "hello there")
            [(3 : ℚ), 5, 0] ((nsEnum 0
              [("A", { keywords := ["xq"], priority := 1 }),
               ("B", { keywords := ["yq"], priority := 2 }),
               ("General Sentiment", { keywords := ["great"], priority := 99 })]).get
                ⟨k, hk⟩).1) :=
  (C7_full_fallback (fun _ b : ℚ => b) (fun _ => (1 : ℚ)) "hello there"
    _ _ _ (by rfl) (by decide) (by rfl) (by decide) (by decide) (by decide)).2
    (by decide)

/-- C8 as stated is false: on the success path classify_batch_reviews builds
one label per item of the parsed model response, not per input review, so a
two-review chunk answered with a single-item response yields one label. -/
theorem C8_counterexample :
    (classify_batch_reviews ["bad app", "slow app"] theme_names
      (.ok [some "App Performance"])).length ≠ 2 := by decide

/-- C8 amended: on provider failure classify_batch_reviews returns exactly one
default "General Sentiment" label per input review; on success it returns one
label per item of the parsed response, each label being either the default or
a verbatim model label that contains some known theme name case-insensitively
(so labels outside the known set can be returned, and the output length tracks
the response, not the input); and the chunk loop concatenates per-chunk
results in order, so labels of earlier chunks are unaffected by later chunks. -/
theorem C8_batch_contract (reviews themes : List String)
    (resp : Except Unit (List RespItem)) :
    (resp = .error () →
      classify_batch_reviews reviews themes resp =
        List.replicate reviews.length "General Sentiment") ∧
    (∀ items, resp = .ok items →
      (classify_batch_reviews reviews themes resp).length = items.length ∧
      ∀ l ∈ classify_batch_reviews reviews themes resp,
        l = "General Sentiment" ∨
          ∃ t ∈ themes, pyIn (pyLower t) (pyLower l) = true) ∧
    (∀ chunks more, processChunks themes (chunks ++ more) =
      processChunks themes chunks ++ processChunks themes more) := by
  refine ⟨?_, ?_, ?_⟩
  · rintro rfl
    rfl
  · rintro items rfl
    constructor
    · simp [classify_batch_reviews]
    · intro l hl
      simp only [classify_batch_reviews] at hl
      obtain ⟨it, hit, hl'⟩ := List.mem_map.1 hl
      by_cases hv : themes.any
          (fun t => pyIn (pyLower t) (pyLower (it.getD "General Sentiment"))) = true
      · right
        obtain ⟨t, ht, hpt⟩ := List.any_eq_true.1 hv
        rw [if_pos hv] at hl'
        rw [← hl']
        exact ⟨t, ht, hpt⟩
      · left
        rw [if_neg hv] at hl'
        exact hl'.symm
  · intro chunks more
    simp [processChunks]

theorem C8_batch_contract_witness :
    (classify_batch_reviews ["r one", "r two"] theme_names
      (.ok [some "mostly UI/UX gripes", none])).length = 2 ∧
    ∀ l ∈ classify_batch_reviews ["r one", "r two"] theme_names
        (.ok [some "mostly UI/UX gripes", none]),
      l = "General Sentiment" ∨
        ∃ t ∈ theme_names, pyIn (pyLower t) (pyLower l) = true :=
  (C8_batch_contract ["r one", "r two"] theme_names
    (.ok [some "mostly UI/UX gripes", none])).2.1
    [some "mostly UI/UX gripes", none] rfl

theorem valueCounts_pairwise (l : List String) :
    (valueCounts l).Pairwise (fun a b => b.2 ≤ a.2) :=
  sortStable_pairwise cntGt (fun a b => b.2 ≤ a.2)
    (fun a b h => by
      simp only [cntGt, decide_eq_true_eq] at h
      exact le_of_lt h)
    (fun a b h => by
      simp only [cntGt, decide_eq_false_iff_not] at h
      exact le_of_not_lt h)
    (fun _ _ _ hab hbc => le_trans hbc hab) _

theorem valueCounts_filter_eq (l : List String) (c : Nat) :
    (valueCounts l).filter (fun e => decide (e.2 = c)) =
      ((firstKeys l).map (fun k => (k, l.count k))).filter
        (fun e => decide (e.2 = c)) := by
  refine sortStable_filter cntGt (fun a b => b.2 ≤ a.2) _
    (fun a b h => by
      simp only [cntGt, decide_eq_true_eq] at h
      exact le_of_lt h)
    (fun a b h => by
      simp only [cntGt, decide_eq_false_iff_not] at h
      exact le_of_not_lt h)
    (fun _ _ _ hab hbc => le_trans hbc hab) ?_ ?_ _
  · intro a b ha hb
    have ha' : a.2 = c := of_decide_eq_true ha
    have hb' : b.2 < a.2 := by
      simp only [cntGt, decide_eq_true_eq] at hb
      exact hb
    exact decide_eq_false (by omega)
  · intro a b z ha hb hbz
    have ha' : a.2 = c := of_decide_eq_true ha
    have hb' : b.2 < a.2 := by
      simp only [cntGt, decide_eq_true_eq] at hb
      exact hb
    exact decide_eq_false (by omega)

theorem valueCounts_perm (l : List String) :
    (valueCounts l).Perm ((firstKeys l).map (fun k => (k, l.count k))) :=
  sortStable_perm cntGt _

theorem firstKeysAux_subset (l : List String) :
    ∀ (seen : List String) (x : String), x ∈ firstKeysAux seen l → x ∈ l := by
  induction l with
  | nil => simp [firstKeysAux]
  | cons a tl ih =>
    intro seen x hx
    simp only [firstKeysAux] at hx
    by_cases hs : a ∈ seen
    · rw [if_pos hs] at hx
      exact List.mem_cons_of_mem _ (ih seen x hx)
    · rw [if_neg hs] at hx
      rcases List.mem_cons.1 hx with rfl | hx
      · simp
      · exact List.mem_cons_of_mem _ (ih _ x hx)

theorem firstKeys_ne_nil (l : List String) (h : l ≠ []) : firstKeys l ≠ [] := by
  cases l with
  | nil => exact absurd rfl h
  | cons a tl =>
    simp [firstKeys, firstKeysAux]

theorem pulseBase_ne_nil (labels : List String) (h : labels ≠ []) :
    pulseBase labels ≠ [] := by
  unfold pulseBase
  by_cases ha : (labels.filter (fun t => t != "General Sentiment")).isEmpty = true
  · rw [if_pos ha]
    exact h
  · rw [if_neg ha]
    intro hnil
    rw [hnil] at ha
    simp at ha

theorem generate_pulse_top3_subset (labels : List String) :
    ∀ t ∈ generate_pulse_top3 labels, t ∈ pulseBase labels := by
  intro t ht
  unfold generate_pulse_top3 at ht
  obtain ⟨e, he, rfl⟩ := List.mem_map.1 ht
  have he' : e ∈ valueCounts (pulseBase labels) := List.mem_of_mem_take he
  have he2 := (valueCounts_perm (pulseBase labels)).mem_iff.1 he'
  obtain ⟨k, hk, rfl⟩ := List.mem_map.1 he2
  exact firstKeysAux_subset _ [] k hk

/-- C9: the reporter ranks the label distribution by descending count with
tied counts kept in first-appearance order (the stable order value_counts
yields), takes the first three keys, never selects General Sentiment while
any actionable label exists, and falls back to the full distribution when no
actionable label exists, so a nonempty labeling always yields a report. -/
theorem C9_top_selection (labels : List String) (c : Nat) :
    ((labels.filter (fun t => t != "General Sentiment")).isEmpty = false →
      ∀ t ∈ generate_pulse_top3 labels, t ≠ "General Sentiment") ∧
    (valueCounts (pulseBase labels)).Pairwise (fun a b => b.2 ≤ a.2) ∧
    ((valueCounts (pulseBase labels)).filter (fun e => decide (e.2 = c)) =
      ((firstKeys (pulseBase labels)).map
        (fun k => (k, (pulseBase labels).count k))).filter
        (fun e => decide (e.2 = c))) ∧
    (labels ≠ [] → generate_pulse_top3 labels ≠ []) := by
  refine ⟨?_, valueCounts_pairwise _, valueCounts_filter_eq _ _, ?_⟩
  · intro hact t ht
    have hbase : pulseBase labels =
        labels.filter (fun t => t != "General Sentiment") := by
      simp [pulseBase, hact]
    have htb := generate_pulse_top3_subset labels t ht
    rw [hbase] at htb
    have hpred := List.of_mem_filter htb
    simpa using hpred
  · intro hlab
    have h1 : pulseBase labels ≠ [] := pulseBase_ne_nil labels hlab
    have h2 : firstKeys (pulseBase labels) ≠ [] := firstKeys_ne_nil _ h1
    have h3 : valueCounts (pulseBase labels) ≠ [] := by
      intro h
      have hperm := valueCounts_perm (pulseBase labels)
      rw [h] at hperm
      have hmap := hperm.symm.eq_nil
      rw [List.map_eq_nil_iff] at hmap
      exact h2 hmap
    intro h4
    unfold generate_pulse_top3 at h4
    rw [List.map_eq_nil_iff] at h4
    cases hv : valueCounts (pulseBase labels) with
    | nil => exact h3 hv
    | cons a tl =>
      rw [hv] at h4
      simp at h4

theorem C9_top_selection_witness :
    ((["Payments/Money", "App Performance", "General Sentiment",
        "Payments/Money"].filter (fun t => t != "General Sentiment")).isEmpty =
      false) ∧
    (∀ t ∈ generate_pulse_top3
        ["Payments/Money", "App Performance", "General Sentiment",
         "Payments/Money"], t ≠ "General Sentiment") ∧
    (["Payments/Money", "App Performance", "General Sentiment",
        "Payments/Money"] ≠ [] →
      generate_pulse_top3
        ["Payments/Money", "App Performance", "General Sentiment",
         "Payments/Money"] ≠ []) :=
  ⟨by decide,
   (C9_top_selection
     ["Payments/Money", "App Performance", "General Sentiment",
      "Payments/Money"] 0).1 (by decide),
   (C9_top_selection
     ["Payments/Money", "App Performance", "General Sentiment",
      "Payments/Money"] 0).2.2.2⟩

theorem ledBy_false_of_head_ne (p c : Char) (ps cs : List Char) (h : p ≠ c) :
    ledBy (p :: ps) (c :: cs) = false := by
  simp [ledBy, h]

theorem subFixedAux_id_of_no_bs (repl : List Char) :
    ∀ (fuel : Nat) (cs : List Char), '\\' ∉ cs →
      subFixedAux phonePat1 repl fuel cs = cs := by
  intro fuel
  induction fuel with
  | zero => intro cs _; cases cs <;> rfl
  | succ n ih =>
    intro cs h
    cases cs with
    | nil => rfl
    | cons c rest =>
      have hc : ('\\' : Char) ≠ c := fun he => h (he ▸ List.mem_cons_self c rest)
      have hled : ledBy phonePat1 (c :: rest) = false := by
        rw [show phonePat1 = '\\' :: ('b' :: '\\' ::
          (List.replicate 10 'd' ++ ['\\', 'b'])) from rfl]
        exact ledBy_false_of_head_ne _ _ _ _ hc
      simp only [subFixedAux]
      rw [if_neg (by simp [hled])]
      have hrest : '\\' ∉ rest := fun hr => h (List.mem_cons_of_mem _ hr)
      rw [ih rest hrest]

theorem phone2MatchLen_none_of_no_bs (c : Char) (rest : List Char)
    (h : ('\\' : Char) ≠ c) :
    phone2MatchLen (c :: rest) = none := by
  have hr : runLen (fun x => x = '\\') (c :: rest) = 0 := by
    simp [runLen, Ne.symm h]
  simp [phone2MatchLen, hr]

theorem subPhone2Aux_id_of_no_bs :
    ∀ (fuel : Nat) (cs : List Char), '\\' ∉ cs → subPhone2Aux fuel cs = cs := by
  intro fuel
  induction fuel with
  | zero => intro cs _; cases cs <;> rfl
  | succ n ih =>
    intro cs h
    cases cs with
    | nil => rfl
    | cons c rest =>
      have hc : ('\\' : Char) ≠ c := fun he => h (he ▸ List.mem_cons_self c rest)
      simp only [subPhone2Aux, phone2MatchLen_none_of_no_bs c rest hc]
      have hrest : '\\' ∉ rest := fun hr => h (List.mem_cons_of_mem _ hr)
      rw [ih rest hrest]

theorem subEmailAux_chars :
    ∀ (fuel : Nat) (cs : List Char) (c : Char), c ∈ subEmailAux fuel cs →
      c ∈ cs ∨ c ∈ "[EMAIL_MASKED]".data := by
  intro fuel
  induction fuel with
  | zero =>
    intro cs c h
    cases cs with
    | nil => exact Or.inl h
    | cons a b => exact Or.inl h
  | succ n ih =>
    intro cs c h
    cases cs with
    | nil => simp [subEmailAux] at h
    | cons c0 rest =>
      cases hm : emailMatchLen (c0 :: rest) with
      | some k =>
        simp only [subEmailAux, hm] at h
        rcases List.mem_append.1 h with h1 | h1
        · exact Or.inr h1
        · rcases ih _ c h1 with h2 | h2
          · exact Or.inl (List.mem_of_mem_drop h2)
          · exact Or.inr h2
      | none =>
        simp only [subEmailAux, hm] at h
        rcases List.mem_cons.1 h with rfl | h1
        · exact Or.inl (List.mem_cons_self _ _)
        · rcases ih _ c h1 with h2 | h2
          · exact Or.inl (List.mem_cons_of_mem _ h2)
          · exact Or.inr h2

theorem maskEmails_no_bs (s : String) (h : '\\' ∉ s.data) :
    '\\' ∉ (maskEmails s).data := by
  intro hmem
  rcases subEmailAux_chars s.data.length s.data '\\' hmem with h1 | h2
  · exact h h1
  · exact absurd h2 (by decide)

/-- C10: the two phone substitutions of mask_pii fire only on text containing
a literal backslash (their raw-string patterns denote backslash-laden literal
text, not digit classes), so on any backslash-free input mask_pii acts as the
email substitution alone: emails become [EMAIL_MASKED] and every digit
sequence outside an email, in particular a bare ten-digit phone number with
or without a +91 prefix, is returned unchanged. -/
theorem C10_phone_subs_dead (s : String) (h : '\\' ∉ s.data) :
    mask_pii s = maskEmails s := by
  have h1 : '\\' ∉ (maskEmails s).data := maskEmails_no_bs s h
  have e1 : subFixedAux phonePat1 "[PHONE_MASKED]".data
      (maskEmails s).data.length (maskEmails s).data = (maskEmails s).data :=
    subFixedAux_id_of_no_bs _ _ _ h1
  have e2 : subPhone2Aux (maskEmails s).data.length (maskEmails s).data =
      (maskEmails s).data := subPhone2Aux_id_of_no_bs _ _ h1
  simp only [mask_pii, e1, e2]

theorem C10_phone_subs_dead_witness :
    ('\\' ∉ "mail joe12@gma.co or call 9876543210 or +91 9876543210".data) ∧
    mask_pii "mail joe12@gma.co or call 9876543210 or +91 9876543210" =
      "mail [EMAIL_MASKED] or call 9876543210 or +91 9876543210" :=
  ⟨by decide,
   (C10_phone_subs_dead "mail joe12@gma.co or call 9876543210 or +91 9876543210"
     (by decide)).trans (by rfl)⟩
